import Mathlib

/-!
Shallow embedding of `epub_sage/extractors/content_extractor.py` from the
epubsage repository, together with theorems settling the frozen claims about
the content extractor: wrapper resolution, header detection, section
segmentation with boilerplate filtering, and image reference
resolution/validation.

Parsed markup documents are modelled as a tree of tags and text nodes
(BeautifulSoup's `Tag` / `NavigableString` distinction).  Python strings are
modelled as Lean `String`s; the string manipulation done by the source
(slicing, `split`, `replace`, `strip`, `lower`, `in`) is implemented on the
underlying character lists so that every definition evaluates by kernel
reduction.  `os.path.join` / `os.path.normpath` are embedded with POSIX
semantics, matching the environment the package targets.
-/

namespace EpubSage

/-- A node of a parsed markup document: either a text node
(`NavigableString`) or a tag (`Tag`) with a name, an attribute list and
ordered children.  The `class` attribute is modelled by its space-joined
token string, which is exactly the string the source recovers via
`" ".join(class_attr)`. -/
inductive Node where
  | text : String → Node
  | elem : String → List (String × String) → List Node → Node
  deriving Repr

/-- Tag name; `""` for text nodes (which have no usable `name` in bs4). -/
def Node.name : Node → String
  | .text _ => ""
  | .elem nm _ _ => nm

/-- `isinstance(child, Tag)`. -/
def Node.isTag : Node → Bool
  | .text _ => false
  | .elem _ _ _ => true

/-- Attribute lookup on an attribute list (first binding wins), modelling
`element.get(key)`. -/
def getAttrList (attrs : List (String × String)) (key : String) : Option String :=
  (attrs.find? (fun p => p.1 == key)).map (fun p => p.2)

/-- `element.get(key)`; text nodes carry no attributes. -/
def Node.getAttr : Node → String → Option String
  | .text _, _ => none
  | .elem _ attrs _, key => getAttrList attrs key

mutual

/-- Characters of `element.get_text()`: concatenation of all descendant
text nodes in document order. -/
def getTextL : Node → List Char
  | .text s => s.data
  | .elem _ _ cs => getTextLs cs

def getTextLs : List Node → List Char
  | [] => []
  | c :: cs => getTextL c ++ getTextLs cs

end

/-- Python `str.strip()` on a character list (whitespace from both ends). -/
def pyStripL (l : List Char) : List Char :=
  ((l.dropWhile Char.isWhitespace).reverse.dropWhile Char.isWhitespace).reverse

mutual

/-- Characters of `element.get_text(strip=True)`: each descendant text node
stripped, then concatenated. -/
def getTextStripL : Node → List Char
  | .text s => pyStripL s.data
  | .elem _ _ cs => getTextStripLs cs

def getTextStripLs : List Node → List Char
  | [] => []
  | c :: cs => getTextStripL c ++ getTextStripLs cs

end

/-- `element.get_text()` as a string. -/
def Node.getText (n : Node) : String := ⟨getTextL n⟩

/-- `element.get_text(strip=True)` as a string. -/
def Node.getTextStrip (n : Node) : String := ⟨getTextStripL n⟩

/-- `element.get_text().strip()` as a string. -/
def Node.getTextOuterStrip (n : Node) : String := ⟨pyStripL (getTextL n)⟩

mutual

/-- `element.find_all(nm)` restricted to the strict descendants of `n`,
in document (preorder) order. -/
def findAllIn (nm : String) : Node → List Node
  | .text _ => []
  | .elem _ _ cs => findAllList nm cs

def findAllList (nm : String) : List Node → List Node
  | [] => []
  | c :: cs =>
    (if c.name == nm && c.isTag then [c] else []) ++ findAllIn nm c ++ findAllList nm cs

end

/-- `element.find_all(nm)`. -/
def Node.findAll (n : Node) (nm : String) : List Node := findAllIn nm n

/-- Python `.lower()` (ASCII case folding; the keyword heuristics of the
source only involve ASCII). -/
def lowerStr (s : String) : String := ⟨s.data.map Char.toLower⟩

/-- Python `needle in hay` substring test on character lists. -/
def containsSub (hay needle : List Char) : Bool :=
  needle.isPrefixOf hay ||
    (match hay with
     | [] => false
     | _ :: t => containsSub t needle)

/-- The direct tag-children of an element:
`[child for child in x.children if isinstance(child, Tag) and child.name]`. -/
def tagChildren : Node → List Node
  | .text _ => []
  | .elem _ _ cs => cs.filter (fun c => c.isTag && c.name != "")

/-- The fixed keyword set checked against class/id (source lines 100–104). -/
def headerKeywords : List String :=
  ["title", "heading", "chapter-head", "ch-title", "section-title",
   "chapter-label", "ch-label", "title-prefix", "chapter-number",
   "label", "title-text"]

/-- `is_generic_header` on a present node (the `element` is not `None`).
Text nodes model non-`Tag` arguments (no usable `name`), returning `False`
through the initial guard. -/
def isGenericHeaderTag (n : Node) : Bool :=
  match n with
  | .text _ => false
  | .elem nm attrs cs =>
    if nm == "" then false
    else if nm ∈ ["h1", "h2", "h3", "h4", "h5", "h6"] then true
    else if getAttrList attrs "role" == some "heading" then true
    else
      let cls := (getAttrList attrs "class").getD ""
      let idStr := (getAttrList attrs "id").getD ""
      let combined := lowerStr (cls ++ " " ++ idStr)
      if headerKeywords.any (fun kw => containsSub combined.data kw.data) then
        let text := Node.getTextStrip (.elem nm attrs cs)
        decide (0 < text.length ∧ text.length < 200)
      else false

/-- `is_generic_header(element)` for `element : Optional[Tag]`
(source lines 83–119). -/
def is_generic_header : Option Node → Bool
  | none => false
  | some n => isGenericHeaderTag n

/-! ### Path normalization and image reference resolution
(source lines 14–80, plus the POSIX `os.path` functions they call). -/

/-- `EXTERNAL_PREFIXES` check: `path.startswith(('http://', 'https://', 'data:'))`
(source lines 17–22, `_is_external_url`). -/
def is_external_url (path : String) : Bool :=
  "http://".data.isPrefixOf path.data ||
    "https://".data.isPrefixOf path.data ||
    "data:".data.isPrefixOf path.data

/-- `while normalized.startswith('../'): normalized = normalized[3:]`. -/
def stripLeadingParents : List Char → List Char
  | '.' :: '.' :: '/' :: rest => stripLeadingParents rest
  | l => l

/-- `_normalize_path` (source lines 25–30): replace `\` by `/`, then strip
leading `../` segments. -/
def normalize_path (path : String) : String :=
  ⟨stripLeadingParents (path.data.map (fun c => if c == '\\' then '/' else c))⟩

/-- POSIX `os.path.join(a, b)` for a single extra component. -/
def posix_join (a b : String) : String :=
  if "/".data.isPrefixOf b.data then b
  else if a.data == [] || a.data.getLast? == some '/' then a ++ b
  else a ++ "/" ++ b

/-- Python `str.split(sep)` for a one-character separator. -/
def splitOnChar (sep : Char) : List Char → List (List Char)
  | [] => [[]]
  | c :: rest =>
    match splitOnChar sep rest with
    | [] => [[]]
    | g :: gs => if c == sep then [] :: g :: gs else (c :: g) :: gs

/-- `'/'.join(components)`. -/
def joinSlash : List (List Char) → List Char
  | [] => []
  | [c] => c
  | c :: rest => c ++ '/' :: joinSlash rest

/-- POSIX `os.path.normpath`: drop empty and `.` components, resolve `..`
against preceding components, preserve one or exactly two leading slashes,
return `.` for an empty result. -/
def posix_normpath (path : String) : String :=
  if path.data == [] then "."
  else
    let initialSlashes : Nat :=
      if "/".data.isPrefixOf path.data then
        if "//".data.isPrefixOf path.data && !("///".data.isPrefixOf path.data) then 2 else 1
      else 0
    let comps := splitOnChar '/' path.data
    let newComps := comps.foldl
      (fun (acc : List (List Char)) comp =>
        if comp == [] || comp == ['.'] then acc
        else if comp != ['.', '.'] || (initialSlashes == 0 && acc == []) ||
            (acc != [] && acc.getLast? == some ['.', '.']) then
          acc ++ [comp]
        else if acc != [] then acc.dropLast
        else acc)
      []
    let res := List.replicate initialSlashes '/' ++ joinSlash newComps
    if res == [] then "." else ⟨res⟩

/-- `resolve_image_path(img_src, html_rel_dir)` (source lines 47–58):
external URLs are returned verbatim; otherwise the fragment (`#…`) and query
(`?…`) suffixes are removed (`img_src.split('#')[0].split('?')[0]`), an empty
remainder yields `None`, and the rest is joined to the containing directory,
`normpath`-ed and `_normalize_path`-ed. -/
def stripFragmentQuery (s : String) : String :=
  ⟨(s.data.takeWhile (· != '#')).takeWhile (· != '?')⟩

def resolve_image_path (img_src : String) (html_rel_dir : String) : Option String :=
  if is_external_url img_src then some img_src
  else
    let base_src : String := stripFragmentQuery img_src
    if base_src == "" then none
    else some (normalize_path (posix_normpath (posix_join html_rel_dir base_src)))

/-- The body of the `for img_src in raw_images` loop of
`resolve_and_validate_images` (source lines 70–78), acting on the pair
(`seen`, `result`).  `if not resolved or resolved in seen: continue` covers
both the `None` and the empty-string results. -/
def rvStep (html_rel_dir : String) (valid_images : List String)
    (st : List String × List String) (img_src : String) : List String × List String :=
  match resolve_image_path img_src html_rel_dir with
  | none => st
  | some resolved =>
    if resolved == "" || resolved ∈ st.1 then st
    else if is_external_url resolved || resolved ∈ valid_images then
      (st.1 ++ [resolved], st.2 ++ [resolved])
    else st

/-- `resolve_and_validate_images(raw_images, html_rel_dir, valid_images)`
(source lines 61–80).  The Python `seen` set and `valid_images` set are
modelled as lists queried by membership. -/
def resolve_and_validate_images (raw_images : List String) (html_rel_dir : String)
    (valid_images : List String) : List String :=
  (raw_images.foldl (rvStep html_rel_dir valid_images) ([], [])).2

/-! ### Wrapper descent and content-level elements (source lines 170–231). -/

theorem sizeOf_lt_of_mem_tagChildren {c n : Node} (h : c ∈ tagChildren n) :
    sizeOf c < sizeOf n := by
  cases n with
  | text s => simp [tagChildren] at h
  | elem nm attrs cs =>
    simp only [tagChildren] at h
    have hc : c ∈ cs := List.mem_of_mem_filter h
    have := List.sizeOf_lt_of_mem hc
    simp only [Node.elem.sizeOf_spec]
    omega

/-- The `while True` loop of lines 171–194: while the current container has
exactly one tag-child, descend into it; with 0 or ≥ 2 tag-children every
branch of the loop body ends in `break`, so the loop stops at the current
container. -/
def findContentContainer (n : Node) : Node :=
  match h : tagChildren n with
  | [c] => findContentContainer c
  | _ => n
termination_by sizeOf n
decreasing_by
  exact sizeOf_lt_of_mem_tagChildren (h ▸ List.mem_singleton_self c)

/-- The number of descent iterations the wrapper-resolution loop performs
before stopping (one per single-tag-child container traversed). -/
def descentSteps (n : Node) : Nat :=
  match h : tagChildren n with
  | [c] => descentSteps c + 1
  | _ => 0
termination_by sizeOf n
decreasing_by
  exact sizeOf_lt_of_mem_tagChildren (h ▸ List.mem_singleton_self c)

mutual

/-- Depth of a markup tree: text nodes have depth 0, an element is one
deeper than its deepest child. -/
def Node.depth : Node → Nat
  | .text _ => 0
  | .elem _ _ cs => 1 + depthList cs

def depthList : List Node → Nat
  | [] => 0
  | c :: cs => max (Node.depth c) (depthList cs)

end

/-- `child.name in ['div', 'section', 'article']` (source lines 189, 216). -/
def containerNames : List String := ["div", "section", "article"]

/-- Lines 196–231: the flat ordered list of content-level elements taken
from the stopping container.  If any direct tag-child is a generic header,
all direct tag-children are content; otherwise each `div`/`section`/`article`
child is unwrapped one level (its tag-children are spliced in if it has any;
a childless container is kept only if its text is non-empty after
stripping), and every other child is kept as-is. -/
def contentChildren (cur : Node) : List Node :=
  let allDirect := tagChildren cur
  if !(allDirect.filter (fun c => is_generic_header (some c))).isEmpty then
    allDirect
  else
    allDirect.flatMap (fun child =>
      if child.name ∈ containerNames then
        let childElements := tagChildren child
        if !childElements.isEmpty then childElements
        else if Node.getTextOuterStrip child != "" then [child]
        else []
      else [child])

/-! ### Section segmentation (source lines 233–314). -/

/-- One content block: the dictionary built per element at lines 288–303.
The source stores `str(child)` (a lossless serialization) under `'html'`;
the embedding keeps the element itself.  Non-header blocks carry no
`is_header` key in the source, modelled as `is_header = false`. -/
structure ContentBlock where
  tag : String
  text : String
  html : Node
  images : List String
  is_header : Bool
  deriving Repr

/-- One emitted section: the dictionary of lines 281–285 / 308–312. -/
structure Section where
  header : String
  content : List ContentBlock
  images : List String
  deriving Repr

/-- Lines 240–260: raw image references of one content element, in source
order — `src` of every descendant `<img>`, then `href` (falling back to
`xlink:href` when `href` is absent or empty) of every descendant `<image>`,
then the element's own reference when it is itself an `img`/`image` tag and
its reference is not already listed. -/
def childImages (child : Node) : List String :=
  let fromImg := (child.findAll "img").filterMap (fun img =>
    match img.getAttr "src" with
    | some s => if s == "" then none else some s
    | none => none)
  let fromSvg := (child.findAll "image").filterMap (fun svgImg =>
    let href := match svgImg.getAttr "href" with
      | some s => if s == "" then svgImg.getAttr "xlink:href" else some s
      | none => svgImg.getAttr "xlink:href"
    match href with
    | some s => if s == "" then none else some s
    | none => none)
  let base := fromImg ++ fromSvg
  if child.name == "img" then
    match child.getAttr "src" with
    | some s => if s != "" && s ∉ base then base ++ [s] else base
    | none => base
  else if child.name == "image" then
    let href := match child.getAttr "href" with
      | some s => if s == "" then child.getAttr "xlink:href" else some s
      | none => child.getAttr "xlink:href"
    match href with
    | some s => if s != "" && s ∉ base then base ++ [s] else base
    | none => base
  else base

/-- `"".join([a.get_text(strip=True) for a in child.find_all('a')])`
(source lines 268–269). -/
def linksText (child : Node) : String :=
  ⟨((child.findAll "a").map getTextStripL).flatten⟩

/-- Lines 266–272: a non-header element is skipped as link-heavy boilerplate
when its stripped text exceeds 40 characters and the ratio of anchor text to
total text exceeds 0.70.  The Python float comparison
`len(links_text) / len(text) > 0.70` is modelled exactly as the rational
comparison `10 * |links| > 7 * |text|`. -/
def linkDense (child : Node) : Bool :=
  let text := child.getTextStrip
  if text.length > 40 then
    decide (10 * (linksText child).length > 7 * text.length)
  else false

/-- The accumulator of the grouping loop (lines 234–237): emitted sections,
`current_header`, `current_content`, `current_images`. -/
structure SegState where
  sections : List Section
  header : Option String
  content : List ContentBlock
  images : List String

/-- Python truthiness of `current_header : Optional[str]`: `None` and the
empty string are falsy. -/
def headerTruthy : Option String → Bool
  | none => false
  | some s => s != ""

/-- `current_header or 'Intro'`. -/
def headerOrIntro : Option String → String
  | none => "Intro"
  | some s => if s == "" then "Intro" else s

/-- `if current_header or current_content:` append the accumulated section
(lines 280–285 and 307–312). -/
def flushSections (st : SegState) : List Section :=
  if headerTruthy st.header || !st.content.isEmpty then
    st.sections ++ [{ header := headerOrIntro st.header,
                      content := st.content, images := st.images }]
  else st.sections

/-- The non-header block appended at lines 298–303. -/
def nonHeaderBlock (child : Node) : ContentBlock :=
  { tag := child.name, text := child.getTextOuterStrip, html := child,
    images := childImages child, is_header := false }

/-- The header block built at lines 288–294.  At line 295 the source then
executes `current_images = child_images`, so `current_images` and this
block's `'images'` entry are the *same list object*. -/
def headerBlock (child : Node) : ContentBlock :=
  { tag := child.name, text := child.getTextOuterStrip, html := child,
    images := childImages child, is_header := true }

/-- The effect, on the accumulated block list, of
`current_images.extend(child_images)` at line 304: whenever the current
section was opened by a header (`current_header` was assigned, so
`current_images` aliases the head block's image list, line 295), the extend
also grows the emitted header block's images.  Before any header
(`current_header is None`), `current_images` is the fresh list of line 237
and no block is aliased. -/
def extendAliased (header : Option String) (content : List ContentBlock)
    (imgs : List String) : List ContentBlock :=
  match header, content with
  | some _, b :: bs => { b with images := b.images ++ imgs } :: bs
  | _, content => content

/-- One iteration of the `for child in content_children` loop
(source lines 239–304), including the `current_images`/header-block
aliasing of lines 295 and 304. -/
def segStep (st : SegState) (child : Node) : SegState :=
  let child_images := childImages child
  let generic_header := is_generic_header (some child)
  if generic_header then
    { sections := flushSections st,
      header := some child.getTextOuterStrip,
      content := [headerBlock child],
      images := child_images }
  else if linkDense child then st
  else if child.getTextStrip == "" && child_images.isEmpty then st
  else
    { st with content := extendAliased st.header st.content child_images ++
                [nonHeaderBlock child],
              images := st.images ++ child_images }

/-- Lines 233–314: group the content-level elements into header-keyed
sections, flushing the last accumulating section at end of input. -/
def segmentSections (content_children : List Node) : List Section :=
  flushSections (content_children.foldl segStep
    { sections := [], header := none, content := [], images := [] })

/-! ### Boilerplate tag stripping, body lookup and the full per-file
pipeline (source lines 122–168, 317–366). -/

/-- `['nav', 'aside', 'script', 'style', 'footer', 'header']`
(source line 161). -/
def junkTags : List String := ["nav", "aside", "script", "style", "footer", "header"]

mutual

/-- `any(is_generic_header(c) for c in junk.descendants if getattr(c, 'name', None))`:
some strict descendant tag with a non-empty name is a generic header. -/
def anyHeaderDesc : Node → Bool
  | .text _ => false
  | .elem _ _ cs => anyHeaderDescList cs

def anyHeaderDescList : List Node → Bool
  | [] => false
  | c :: cs =>
    (c.isTag && c.name != "" && isGenericHeaderTag c) ||
      anyHeaderDesc c || anyHeaderDescList cs

end

/-- A junk element is decomposed only if neither it nor any of its named
descendants is a generic header (source lines 165–167). -/
def junkRemovable (n : Node) : Bool :=
  !isGenericHeaderTag n && !anyHeaderDesc n

mutual

/-- One `for junk in body.find_all(junk_tag)` pass (lines 162–168) for a
single junk tag name, as a pure tree transformation: matching removable
elements are dropped in document order; surviving elements are processed
recursively.  (bs4 collects the matches first and mutates; top-down removal
with the condition evaluated on each element's own subtree yields the same
tree.) -/
def stripPassNode (j : String) : Node → Node
  | .text s => .text s
  | .elem nm attrs cs => .elem nm attrs (stripPassList j cs)

def stripPassList (j : String) : List Node → List Node
  | [] => []
  | c :: cs =>
    if c.isTag && c.name == j && junkRemovable c then stripPassList j cs
    else stripPassNode j c :: stripPassList j cs

end

/-- Lines 160–168: the six junk-tag passes, applied to `body` in order. -/
def stripJunk (body : Node) : Node :=
  junkTags.foldl (fun n j => stripPassNode j n) body

mutual

/-- `soup.find('body')`: first element named `body` in document (preorder)
order among the given nodes and their descendants. -/
def findBodyNode : Node → Option Node
  | .text _ => none
  | .elem nm attrs cs =>
    if nm == "body" then some (.elem nm attrs cs)
    else findBodyList cs

def findBodyList : List Node → Option Node
  | [] => none
  | c :: cs =>
    match findBodyNode c with
    | some b => some b
    | none => findBodyList cs

end

/-- The outcome of opening and parsing `html_file_path` (lines 141–154):
the file may be absent (`os.path.exists` is false), opening/reading it may
raise (caught by the outer `try`, returning `[]`), both parser attempts may
raise inside the outer `try` (also returning `[]`), or parsing succeeds and
yields the parsed top-level nodes. -/
inductive HtmlSource where
  | absent
  | readError
  | parseError
  | parsed (roots : List Node)

/-- `extract_content_sections` (source lines 122–314) over the modelled
read/parse outcome: every failure path returns the empty section list; a
parsed document without a `body` element returns the empty section list;
otherwise junk tags are stripped, the wrapper chain is descended, the
content-level elements are collected and segmented into sections. -/
def extract_content_sections : HtmlSource → List Section
  | .absent => []
  | .readError => []
  | .parseError => []
  | .parsed roots =>
    match findBodyList roots with
    | none => []
    | some body =>
      segmentSections (contentChildren (findContentContainer (stripJunk body)))

/-- The per-section image resolution performed by `extract_book_content`
(source lines 352–366): the section-level aggregate and each block's list
are passed through `resolve_and_validate_images`. -/
def resolveSection (html_rel_dir : String) (valid_images : List String)
    (sec : Section) : Section :=
  { sec with
    images := resolve_and_validate_images sec.images html_rel_dir valid_images,
    content := sec.content.map (fun b =>
      { b with images := resolve_and_validate_images b.images html_rel_dir valid_images }) }

/-! ### Specification-side helper definitions used by the theorems. -/

/-- The outcome of resolving and keep-testing a single raw reference, read
off the loop body of `resolve_and_validate_images`: `none` when the
reference is dropped (unresolvable, empty, or internal and not among the
known images), `some` of its final normalized value when it is kept. -/
def keptOne (html_rel_dir : String) (valid_images : List String)
    (img_src : String) : Option String :=
  match resolve_image_path img_src html_rel_dir with
  | none => none
  | some resolved =>
    if resolved == "" then none
    else if is_external_url resolved || resolved ∈ valid_images then some resolved
    else none

/-- The final normalized values of the kept references, in input order and
with duplicates retained. -/
def keptResolved (raw_images : List String) (html_rel_dir : String)
    (valid_images : List String) : List String :=
  raw_images.filterMap (keptOne html_rel_dir valid_images)

/-- Order-preserving deduplication keeping the first occurrence of each
value. -/
def dedupFirst : List String → List String
  | [] => []
  | x :: xs => x :: (dedupFirst xs).filter (fun y => y != x)

/-- Deduplication relative to an already-seen list, mirroring the
`seen`-set discipline of the source loop. -/
def dedupAvoid : List String → List String → List String
  | _, [] => []
  | seen, x :: xs =>
    if x ∈ seen then dedupAvoid seen xs
    else x :: dedupAvoid (seen ++ [x]) xs

/-- A non-header content element survives the boilerplate filters of lines
262–276: it is neither link-dense nor empty of both text and images. -/
def keptNonHeader (child : Node) : Bool :=
  !linkDense child && !(child.getTextStrip == "" && (childImages child).isEmpty)

/-! ### Concrete documents used by witnesses and counterexamples. -/

/-- A plain paragraph with the given text. -/
def para (s : String) : Node := .elem "p" [] [.text s]

/-- Five sibling paragraphs. -/
def fiveParas : List Node :=
  [para "One", para "Two", para "Three", para "Four", para "Five"]

/-- A body wrapping five paragraphs in a chain of three nested
single-child divs. -/
def tripleWrappedBody : Node :=
  .elem "body" [] [.elem "div" [] [.elem "div" [] [.elem "div" [] fiveParas]]]

/-- A non-header block with 50 characters of stripped text, 40 of which sit
inside an anchor element (link ratio 0.80). -/
def linkHeavyElem : Node :=
  .elem "div" []
    [.elem "a" [("href", "toc.html")] [.text "0123456789012345678901234567890123456789"],
     .text "0123456789"]

/-- A paragraph with no text whose only content is an image reference. -/
def imageOnlyElem : Node :=
  .elem "p" [] [.elem "img" [("src", "pic.png")] []]

/-- A paragraph carrying the same image reference twice. -/
def dupImageElem : Node :=
  .elem "p" [] [.elem "img" [("src", "a.png")] [], .elem "img" [("src", "a.png")] []]

/-- A header followed by an image-only paragraph: the section's aggregate is
aliased to the header block's image list, so the extend for the paragraph
also grows the emitted header block's images. -/
def headerLedContent : List Node := [.elem "h1" [] [.text "T"], imageOnlyElem]

/-- The single section produced for `headerLedContent`: the header block's
images end up equal to the aggregate (aliasing), duplicating the
paragraph's image across the two blocks. -/
def aliasedHeaderSec : Section :=
  { header := "T",
    content := [{ tag := "h1", text := "T", html := .elem "h1" [] [.text "T"],
                  images := ["pic.png"], is_header := true },
                { tag := "p", text := "", html := imageOnlyElem,
                  images := ["pic.png"], is_header := false }],
    images := ["pic.png"] }

/-- The true shape of an emitted section's image data.  Either the section
has no header block, and its aggregate is the concatenation of its blocks'
image lists; or it is header-led: its first block is the header block, the
rest are non-header, the aggregate *is* the header block's (aliased, line
295/304) final image list, and that list is the header element's own
extracted images followed by the concatenation of the non-header blocks'
image lists. -/
def SecImagesInv (sec : Section) : Prop :=
  ((∀ b ∈ sec.content, b.is_header = false) ∧
     sec.images = sec.content.flatMap ContentBlock.images) ∨
  (∃ b bs, sec.content = b :: bs ∧ b.is_header = true ∧
     (∀ x ∈ bs, x.is_header = false) ∧
     sec.images = b.images ∧
     b.images = childImages b.html ++ bs.flatMap ContentBlock.images)

/-- `SecImagesInv` for the accumulating section, tied to `current_header`:
before any header the aggregate is the fresh unaliased list of line 237;
after a header it aliases the head block's list. -/
def CurImagesInv (st : SegState) : Prop :=
  (st.header = none ∧ (∀ b ∈ st.content, b.is_header = false) ∧
     st.images = st.content.flatMap ContentBlock.images) ∨
  (st.header ≠ none ∧ ∃ b bs, st.content = b :: bs ∧ b.is_header = true ∧
     (∀ x ∈ bs, x.is_header = false) ∧
     st.images = b.images ∧
     b.images = childImages b.html ++ bs.flatMap ContentBlock.images)

/-- Invariant of the grouping-loop accumulator. -/
def StImagesInv (st : SegState) : Prop :=
  (∀ sec ∈ st.sections, SecImagesInv sec) ∧ CurImagesInv st

/-! ## Helper lemmas -/

theorem fcc_step {n c : Node} (h : tagChildren n = [c]) :
    findContentContainer n = findContentContainer c := by
  rw [findContentContainer]
  split <;> simp_all

theorem fcc_stop {n : Node} (h : (tagChildren n).length ≠ 1) :
    findContentContainer n = n := by
  rw [findContentContainer]
  split <;> simp_all

theorem ds_step {n c : Node} (h : tagChildren n = [c]) :
    descentSteps n = descentSteps c + 1 := by
  rw [descentSteps]
  split <;> simp_all

theorem ds_stop {n : Node} (h : (tagChildren n).length ≠ 1) :
    descentSteps n = 0 := by
  rw [descentSteps]
  split <;> simp_all

theorem depth_le_depthList {c : Node} {cs : List Node} (h : c ∈ cs) :
    Node.depth c ≤ depthList cs := by
  induction cs with
  | nil => cases h
  | cons d ds ih =>
    rw [depthList]
    rcases List.mem_cons.mp h with rfl | hmem
    · exact Nat.le_max_left _ _
    · exact Nat.le_trans (ih hmem) (Nat.le_max_right _ _)

theorem depth_lt_of_mem_tagChildren {c n : Node} (h : c ∈ tagChildren n) :
    Node.depth c < Node.depth n := by
  cases n with
  | text s => simp [tagChildren] at h
  | elem nm attrs cs =>
    simp only [tagChildren] at h
    have hc : c ∈ cs := List.mem_of_mem_filter h
    have := depth_le_depthList hc
    rw [Node.depth]
    omega

/-! ## C8: failure paths return the empty section list -/

/-- C8: section extraction is total and returns the empty list for an
absent file, an unreadable file, an unparseable file, and a parsed
document without a `body` element. -/
theorem c8_failure_paths_empty :
    extract_content_sections .absent = [] ∧
    extract_content_sections .readError = [] ∧
    extract_content_sections .parseError = [] ∧
    ∀ roots : List Node, findBodyList roots = none →
      extract_content_sections (.parsed roots) = [] := by
  refine ⟨rfl, rfl, rfl, fun roots h => ?_⟩
  simp [extract_content_sections, h]

/-- Witness for C8: a parsed document whose only element is an empty
`<html>` tag has no body, and extraction returns the empty list. -/
theorem c8_witness :
    findBodyList [.elem "html" [] []] = none ∧
    extract_content_sections (.parsed [.elem "html" [] []]) = [] :=
  ⟨rfl, c8_failure_paths_empty.2.2.2 [.elem "html" [] []] rfl⟩

/-! ## C10: wrapper-descent termination bound -/

/-- C10: the wrapper-descent loop performs at most `depth` descending
iterations — each iteration with exactly one tag-child moves to a child
(strictly shallower subtree), every other iteration stops. -/
theorem c10_descent_bounded_by_depth (n : Node) : descentSteps n ≤ Node.depth n := by
  rcases h : tagChildren n with _ | ⟨c, _ | ⟨c2, t⟩⟩
  · rw [ds_stop (by rw [h]; decide)]
    exact Nat.zero_le _
  · have hm : c ∈ tagChildren n := by rw [h]; exact List.mem_singleton_self c
    have hd := depth_lt_of_mem_tagChildren hm
    have ih := c10_descent_bounded_by_depth c
    rw [ds_step h]
    omega
  · rw [ds_stop (by rw [h]; simp)]
    exact Nat.zero_le _
termination_by sizeOf n
decreasing_by exact sizeOf_lt_of_mem_tagChildren hm

/-! ## C1: wrapper descent and the content level -/

/-- C1: the wrapper resolver descends exactly while the current element has
exactly one tag-child and stops as soon as the tag-child count is 0 or ≥ 2;
a body wrapping five sibling paragraphs in three nested single-child divs
yields exactly those five paragraphs as the content-level elements. -/
theorem c1_wrapper_descent :
    (∀ n c : Node, tagChildren n = [c] →
      findContentContainer n = findContentContainer c) ∧
    (∀ n : Node, (tagChildren n).length ≠ 1 → findContentContainer n = n) ∧
    contentChildren (findContentContainer tripleWrappedBody) = fiveParas := by
  refine ⟨fun n c h => fcc_step h, fun n h => fcc_stop h, ?_⟩
  rw [fcc_step (show tagChildren tripleWrappedBody =
    [.elem "div" [] [.elem "div" [] [.elem "div" [] fiveParas]]] from rfl)]
  rw [fcc_step (show tagChildren (.elem "div" [] [.elem "div" [] [.elem "div" [] fiveParas]]) =
    [.elem "div" [] [.elem "div" [] fiveParas]] from rfl)]
  rw [fcc_step (show tagChildren (.elem "div" [] [.elem "div" [] fiveParas]) =
    [.elem "div" [] fiveParas] from rfl)]
  rw [fcc_stop (n := .elem "div" [] fiveParas) (by decide)]
  rfl

/-- Witness for C1: a body with a single tag-child descends into it, and a
paragraph with no tag-children is a stopping point. -/
theorem c1_witness :
    tagChildren (.elem "body" [] [para "x"]) = [para "x"] ∧
    findContentContainer (.elem "body" [] [para "x"]) = findContentContainer (para "x") ∧
    (tagChildren (para "x")).length ≠ 1 ∧
    findContentContainer (para "x") = para "x" :=
  ⟨rfl, c1_wrapper_descent.1 _ _ rfl, by decide,
    c1_wrapper_descent.2.1 (para "x") (by decide)⟩

/-! ## C4: header detector characterization -/

/-- C4: `is_generic_header` returns `false` for a missing element and, for
an element with a (non-empty) tag name, returns `true` exactly when the name
is one of `h1`–`h6`, or the ARIA role is `heading`, or the lower-cased
concatenation of class list and id contains one of the fixed keywords and
the stripped text length is strictly between 0 and 200.  The function is
pure: it is a plain function of its argument. -/
theorem c4_header_detector :
    is_generic_header none = false ∧
    ∀ (nm : String) (attrs : List (String × String)) (cs : List Node),
      nm ≠ "" →
      (is_generic_header (some (.elem nm attrs cs)) = true ↔
        (nm ∈ (["h1", "h2", "h3", "h4", "h5", "h6"] : List String) ∨
         getAttrList attrs "role" = some "heading" ∨
         (headerKeywords.any (fun kw =>
            containsSub (lowerStr ((getAttrList attrs "class").getD "" ++ " " ++
              (getAttrList attrs "id").getD "")).data kw.data) = true ∧
          0 < (Node.getTextStrip (.elem nm attrs cs)).length ∧
          (Node.getTextStrip (.elem nm attrs cs)).length < 200))) := by
  refine ⟨rfl, fun nm attrs cs hnm => ?_⟩
  simp only [is_generic_header, isGenericHeaderTag]
  rw [if_neg (by simpa using hnm)]
  split_ifs with h1 h2 h3
  · simp [h1]
  · have : getAttrList attrs "role" = some "heading" := by simpa using h2
    simp [h1, this]
  · have h2' : getAttrList attrs "role" ≠ some "heading" := by simpa using h2
    simp [h1, h2', h3, decide_eq_true_iff, and_assoc]
  · have h2' : getAttrList attrs "role" ≠ some "heading" := by simpa using h2
    simp [h1, h2', h3]

/-- Witness for C4: an `h2` element is detected as a header. -/
theorem c4_witness : is_generic_header (some (.elem "h2" [] [])) = true :=
  (c4_header_detector.2 "h2" [] [] (by decide)).mpr (Or.inl (by decide))

/-! ## Lemmas about one segmentation step -/

theorem segStep_skip_linkDense {st : SegState} {child : Node}
    (hH : is_generic_header (some child) = false)
    (hld : linkDense child = true) :
    segStep st child = st := by
  simp [segStep, hH, hld]

theorem segStep_skip_empty {st : SegState} {child : Node}
    (hH : is_generic_header (some child) = false)
    (hld : linkDense child = false)
    (hte : child.getTextStrip = "") (hie : (childImages child).isEmpty = true) :
    segStep st child = st := by
  simp [segStep, hH, hld, hte, hie]

theorem extendAliased_none (content : List ContentBlock) (imgs : List String) :
    extendAliased none content imgs = content := by
  cases content <;> rfl

theorem extendAliased_some (h : String) (b : ContentBlock) (bs : List ContentBlock)
    (imgs : List String) :
    extendAliased (some h) (b :: bs) imgs =
      { b with images := b.images ++ imgs } :: bs := rfl

theorem segStep_append {st : SegState} {child : Node}
    (hH : is_generic_header (some child) = false)
    (hk : keptNonHeader child = true) :
    segStep st child =
      { st with content := extendAliased st.header st.content (childImages child) ++
                  [nonHeaderBlock child],
                images := st.images ++ childImages child } := by
  rw [keptNonHeader, Bool.and_eq_true, Bool.not_eq_true', Bool.not_eq_true'] at hk
  obtain ⟨hld, hne⟩ := hk
  rw [Bool.and_eq_false_iff] at hne
  simp only [segStep, hH, Bool.false_eq_true, if_false, hld]
  rcases hne with hne | hne <;> simp [hne]

theorem segStep_skip {st : SegState} {child : Node}
    (hH : is_generic_header (some child) = false)
    (hk : keptNonHeader child = false) :
    segStep st child = st := by
  rw [keptNonHeader, Bool.and_eq_false_iff] at hk
  rcases hk with hld | hne
  · rw [Bool.not_eq_false'] at hld
    exact segStep_skip_linkDense hH hld
  · rw [Bool.not_eq_false', Bool.and_eq_true] at hne
    obtain ⟨hte, hie⟩ := hne
    by_cases hld : linkDense child = true
    · exact segStep_skip_linkDense hH hld
    · exact segStep_skip_empty hH (by simpa using hld) (by simpa using hte) hie

/-! ## C5: link-density filter -/

/-- C5: a non-header element whose stripped text exceeds 40 characters and
whose anchor-text-to-text ratio strictly exceeds 0.70 is skipped by the
segmenter — the accumulator is unchanged, so the element contributes no
block to any section. -/
theorem c5_link_density_filter (st : SegState) (child : Node)
    (hH : is_generic_header (some child) = false)
    (hLen : (child.getTextStrip).length > 40)
    (hRatio : 10 * (linksText child).length > 7 * (child.getTextStrip).length) :
    segStep st child = st := by
  have hld : linkDense child = true := by
    simp only [linkDense]
    rw [if_pos hLen]
    exact decide_eq_true hRatio
  exact segStep_skip_linkDense hH hld

/-- Witness for C5: a non-header div with 50 characters of stripped text,
40 of them inside an anchor (ratio 0.80), is excluded. -/
theorem c5_witness :
    is_generic_header (some linkHeavyElem) = false ∧
    (linkHeavyElem.getTextStrip).length = 50 ∧
    (linksText linkHeavyElem).length = 40 ∧
    segStep { sections := [], header := none, content := [], images := [] } linkHeavyElem =
      { sections := [], header := none, content := [], images := [] } :=
  ⟨by decide, by decide, by decide,
    c5_link_density_filter _ linkHeavyElem (by decide) (by decide) (by decide)⟩

/-! ## C6: empty blocks with images are kept -/

/-- C6: for a non-header element the images are extracted regardless of the
filters, and an element with no visible text but a non-empty extracted image
list is appended as the section's final block (with exactly those images)
rather than filtered out; the aggregate (and, through the line-295 aliasing,
a preceding header block's list) grows by those images. -/
theorem c6_image_only_kept (st : SegState) (child : Node)
    (hH : is_generic_header (some child) = false)
    (hte : child.getTextStrip = "")
    (hne : childImages child ≠ []) :
    segStep st child =
      { st with content := extendAliased st.header st.content (childImages child) ++
                  [nonHeaderBlock child],
                images := st.images ++ childImages child } := by
  have hld : linkDense child = false := by
    simp [linkDense, hte]
  have hie : (childImages child).isEmpty = false := by
    cases h : childImages child with
    | nil => exact absurd h hne
    | cons a l => rfl
  apply segStep_append hH
  simp [keptNonHeader, hld, hte, hie]

/-- Witness for C6: a paragraph whose only content is an `<img>` has empty
stripped text and one extracted image, and is kept as a block. -/
theorem c6_witness :
    imageOnlyElem.getTextStrip = "" ∧
    childImages imageOnlyElem = ["pic.png"] ∧
    segStep { sections := [], header := none, content := [], images := [] } imageOnlyElem =
      { sections := [], header := none, content := [nonHeaderBlock imageOnlyElem],
        images := ["pic.png"] } :=
  ⟨by decide, by decide, by
    have h := c6_image_only_kept
      { sections := [], header := none, content := [], images := [] } imageOnlyElem
      (by decide) (by decide) (by decide)
    simpa [extendAliased_none] using h⟩

/-! ## C2: documents without headers yield one "Intro" section -/

theorem segFold_nonheaders (cs : List Node) :
    ∀ st : SegState, st.header = none →
      (∀ c ∈ cs, is_generic_header (some c) = false) →
      cs.foldl segStep st =
        { st with content := st.content ++ (cs.filter keptNonHeader).map nonHeaderBlock,
                  images := st.images ++ (cs.filter keptNonHeader).flatMap childImages } := by
  induction cs with
  | nil => intro st _ _; simp
  | cons c cs ih =>
    intro st hhdr h
    have hc := h c (List.mem_cons_self c cs)
    have hrest : ∀ x ∈ cs, is_generic_header (some x) = false :=
      fun x hx => h x (List.mem_cons_of_mem c hx)
    rw [List.foldl_cons]
    by_cases hk : keptNonHeader c = true
    · rw [segStep_append hc hk, hhdr, extendAliased_none]
      have hnew := ih
        { st with header := none,
                  content := st.content ++ [nonHeaderBlock c],
                  images := st.images ++ childImages c }
        rfl hrest
      rw [hnew]
      simp [List.filter_cons, hk, List.append_assoc]
    · rw [segStep_skip hc (by simpa using hk), ih _ hhdr hrest]
      simp [List.filter_cons, hk]

/-- C2: if no content-level element is header-like and at least one element
survives the boilerplate filters, segmentation produces exactly one section,
headed `"Intro"`, whose blocks are exactly the surviving elements in
document order (and whose images are their concatenated images). -/
theorem c2_intro_section (cs : List Node)
    (hH : ∀ c ∈ cs, is_generic_header (some c) = false)
    (hne : cs.filter keptNonHeader ≠ []) :
    segmentSections cs =
      [{ header := "Intro",
         content := (cs.filter keptNonHeader).map nonHeaderBlock,
         images := (cs.filter keptNonHeader).flatMap childImages }] := by
  rw [segmentSections, segFold_nonheaders cs _ rfl hH]
  have hce : ((cs.filter keptNonHeader).map nonHeaderBlock).isEmpty = false := by
    cases h : cs.filter keptNonHeader with
    | nil => exact absurd h hne
    | cons a l => rfl
  simp [flushSections, headerTruthy, headerOrIntro, hce]

/-- Witness for C2: a single plain paragraph, not header-like and surviving
the filters, yields one `"Intro"` section containing exactly its block. -/
theorem c2_witness :
    (∀ c ∈ [para "hello"], is_generic_header (some c) = false) ∧
    [para "hello"].filter keptNonHeader ≠ [] ∧
    segmentSections [para "hello"] =
      [{ header := "Intro",
         content := ([para "hello"].filter keptNonHeader).map nonHeaderBlock,
         images := ([para "hello"].filter keptNonHeader).flatMap childImages }] :=
  ⟨by decide, by exact List.cons_ne_nil _ _,
    c2_intro_section [para "hello"] (by decide) (by exact List.cons_ne_nil _ _)⟩

/-! ## C7: deduplication discipline of the image reference resolver -/

theorem rvStep_eq (html_rel_dir : String) (valid_images : List String)
    (s : List String) (img_src : String) :
    rvStep html_rel_dir valid_images (s, s) img_src =
      match keptOne html_rel_dir valid_images img_src with
      | none => (s, s)
      | some r => if r ∈ s then (s, s) else (s ++ [r], s ++ [r]) := by
  rw [rvStep, keptOne]
  cases h : resolve_image_path img_src html_rel_dir with
  | none => rfl
  | some resolved =>
    by_cases he : resolved = ""
    · simp [he]
    · have he' : (resolved == "") = false := by simpa using he
      simp only [he', Bool.false_or]
      by_cases hs : resolved ∈ s
      · by_cases hv : (is_external_url resolved || resolved ∈ valid_images) = true <;>
          simp [hs, hv]
      · by_cases hv : (is_external_url resolved || resolved ∈ valid_images) = true <;>
          simp [hs, hv]

theorem rvFold_eq_dedupAvoid (raw_images : List String) (html_rel_dir : String)
    (valid_images : List String) (s : List String) :
    (raw_images.foldl (rvStep html_rel_dir valid_images) (s, s)).2 =
      s ++ dedupAvoid s (keptResolved raw_images html_rel_dir valid_images) := by
  induction raw_images generalizing s with
  | nil => simp [keptResolved, dedupAvoid]
  | cons src rest ih =>
    rw [List.foldl_cons, rvStep_eq]
    cases hko : keptOne html_rel_dir valid_images src with
    | none =>
      rw [keptResolved, List.filterMap_cons_none hko, ih]
      rfl
    | some r =>
      rw [keptResolved, List.filterMap_cons_some hko]
      by_cases hs : r ∈ s
      · simp only [hs, if_true]
        rw [ih]
        simp [keptResolved, dedupAvoid, hs]
      · simp only [hs, if_false]
        rw [ih (s ++ [r])]
        simp [keptResolved, dedupAvoid, hs, List.append_assoc]

theorem rv_eq_dedupAvoid (raw_images : List String) (html_rel_dir : String)
    (valid_images : List String) :
    resolve_and_validate_images raw_images html_rel_dir valid_images =
      dedupAvoid [] (keptResolved raw_images html_rel_dir valid_images) := by
  rw [resolve_and_validate_images, rvFold_eq_dedupAvoid]
  rfl

theorem dedupAvoid_eq_filter_dedupFirst (l : List String) :
    ∀ s : List String,
      dedupAvoid s l = (dedupFirst l).filter (fun y => decide (y ∉ s)) := by
  induction l with
  | nil => intro s; rfl
  | cons x xs ih =>
    intro s
    by_cases hx : x ∈ s
    · rw [dedupAvoid, if_pos hx, ih s, dedupFirst]
      rw [List.filter_cons_of_neg (by simpa using hx)]
      rw [List.filter_filter]
      apply List.filter_congr
      intro y _
      by_cases hyx : y = x
      · subst hyx
        simp [hx]
      · simp [hyx]
    · rw [dedupAvoid, if_neg hx, ih (s ++ [x]), dedupFirst]
      rw [List.filter_cons_of_pos (by simpa using hx)]
      rw [List.filter_filter]
      congr 1
      apply List.filter_congr
      intro y _
      by_cases hyx : y = x
      · subst hyx
        simp
      · simp [hyx, List.mem_append]

theorem dedupAvoid_nil_eq_dedupFirst (l : List String) :
    dedupAvoid [] l = dedupFirst l := by
  rw [dedupAvoid_eq_filter_dedupFirst l []]
  simp

theorem rv_eq_dedupFirst (raw_images : List String) (html_rel_dir : String)
    (valid_images : List String) :
    resolve_and_validate_images raw_images html_rel_dir valid_images =
      dedupFirst (keptResolved raw_images html_rel_dir valid_images) := by
  rw [rv_eq_dedupAvoid, dedupAvoid_nil_eq_dedupFirst]

theorem dedupFirst_nodup (l : List String) : (dedupFirst l).Nodup := by
  induction l with
  | nil => exact List.nodup_nil
  | cons x xs ih =>
    rw [dedupFirst]
    refine List.Nodup.cons ?_ (ih.filter _)
    intro hmem
    have := List.of_mem_filter hmem
    simp at this

/-- C7: the resolver's output is the order-preserving first-occurrence
deduplication of the final normalized values of the kept references, and in
particular contains no duplicate entries. -/
theorem c7_dedup_first_occurrence (raw_images : List String) (html_rel_dir : String)
    (valid_images : List String) :
    resolve_and_validate_images raw_images html_rel_dir valid_images =
      dedupFirst (keptResolved raw_images html_rel_dir valid_images) ∧
    (resolve_and_validate_images raw_images html_rel_dir valid_images).Nodup := by
  refine ⟨rv_eq_dedupFirst _ _ _, ?_⟩
  rw [rv_eq_dedupFirst]
  exact dedupFirst_nodup _

/-! ## C3: image reference resolution (corrected) -/

theorem ext_ne_empty {s : String} (h : is_external_url s = true) : s ≠ "" := by
  intro hs
  subst hs
  exact absurd h (by decide)

/-- Counterexample to C3 as stated: the non-external reference `./data:x`
(from the package root, with an empty known-image set) normalizes to
`data:x`, which the code then treats as external and keeps even though it is
not present in the known-image set — so "kept if and only if the normalized
path is present in the known-image set" fails. -/
theorem c3_counterexample :
    is_external_url "./data:x" = false ∧
    resolve_image_path "./data:x" "" = some "data:x" ∧
    "data:x" ∉ ([] : List String) ∧
    resolve_and_validate_images ["./data:x"] "" [] = ["data:x"] :=
  ⟨by decide, by decide, by decide, by decide⟩

/-- C3 (amended): an external reference is kept verbatim (independently of
the known-image set); an unresolvable reference is dropped; a non-external
reference is dropped exactly when its fragment/query-stripped remainder is
empty, and otherwise resolves to the normalized join with the containing
directory and is kept if and only if that normalized value is non-empty and
either itself carries an external prefix or is present in the known-image
set. -/
theorem c3_resolution_amended (img_src html_rel_dir : String) (valid_images : List String) :
    (is_external_url img_src = true →
      resolve_image_path img_src html_rel_dir = some img_src ∧
      ∀ valid2 : List String,
        resolve_and_validate_images [img_src] html_rel_dir valid2 = [img_src]) ∧
    (is_external_url img_src = false →
      (stripFragmentQuery img_src = "" ↔
        resolve_image_path img_src html_rel_dir = none) ∧
      (stripFragmentQuery img_src ≠ "" →
        resolve_image_path img_src html_rel_dir =
          some (normalize_path (posix_normpath
            (posix_join html_rel_dir (stripFragmentQuery img_src))))) ∧
      (∀ r : String, resolve_image_path img_src html_rel_dir = some r →
        resolve_and_validate_images [img_src] html_rel_dir valid_images =
          if r ≠ "" ∧ (is_external_url r = true ∨ r ∈ valid_images) then [r] else [])) ∧
    (resolve_image_path img_src html_rel_dir = none →
      resolve_and_validate_images [img_src] html_rel_dir valid_images = []) := by
  refine ⟨fun hext => ?_, fun hext => ⟨?_, ?_, ?_⟩, fun hnone => ?_⟩
  · have h1 : resolve_image_path img_src html_rel_dir = some img_src := by
      rw [resolve_image_path, if_pos hext]
    refine ⟨h1, fun valid2 => ?_⟩
    have hne : (img_src == "") = false := by simpa using ext_ne_empty hext
    simp [resolve_and_validate_images, rvStep, h1, hne, hext]
  · rw [resolve_image_path, if_neg (by simp [hext])]
    constructor
    · intro hb
      rw [if_pos (by simpa using hb)]
    · intro hn
      by_cases hb : (stripFragmentQuery img_src == "") = true
      · simpa using hb
      · rw [if_neg hb] at hn
        simp at hn
  · intro hb
    rw [resolve_image_path, if_neg (by simp [hext]), if_neg (by simpa using hb)]
  · intro r hr
    by_cases hre : r = ""
    · subst hre
      simp [resolve_and_validate_images, rvStep, hr]
    · have hre' : (r == "") = false := by simpa using hre
      by_cases hkeep : (is_external_url r || r ∈ valid_images) = true
      · rw [if_pos ⟨hre, by simpa using hkeep⟩]
        simp [resolve_and_validate_images, rvStep, hr, hre', hkeep]
      · rw [if_neg (by simp at hkeep; simp [hre, hkeep])]
        simp at hkeep
        simp [resolve_and_validate_images, rvStep, hr, hre', hkeep]
  · simp [resolve_and_validate_images, rvStep, hnone]

/-- Witness for the amended C3: `../images/cover.jpg` from `OEBPS/Text`
resolves to `OEBPS/images/cover.jpg`, is kept exactly when that path is in
the known-image set, and is dropped otherwise. -/
theorem c3_witness :
    is_external_url "../images/cover.jpg" = false ∧
    resolve_image_path "../images/cover.jpg" "OEBPS/Text" = some "OEBPS/images/cover.jpg" ∧
    resolve_and_validate_images ["../images/cover.jpg"] "OEBPS/Text"
      ["OEBPS/images/cover.jpg"] = ["OEBPS/images/cover.jpg"] ∧
    resolve_and_validate_images ["../images/cover.jpg"] "OEBPS/Text" [] = [] := by
  refine ⟨by decide, by decide, ?_, ?_⟩
  · have h := ((c3_resolution_amended "../images/cover.jpg" "OEBPS/Text"
      ["OEBPS/images/cover.jpg"]).2.1 (by decide)).2.2 "OEBPS/images/cover.jpg" (by decide)
    rw [h]
    decide
  · have h := ((c3_resolution_amended "../images/cover.jpg" "OEBPS/Text"
      []).2.1 (by decide)).2.2 "OEBPS/images/cover.jpg" (by decide)
    rw [h]
    decide

/-! ## C9: section image aggregation (corrected) -/

theorem mem_dedupAvoid (y : String) :
    ∀ (l s : List String), y ∈ dedupAvoid s l ↔ (y ∈ l ∧ y ∉ s)
  | [], s => by simp [dedupAvoid]
  | x :: xs, s => by
    by_cases hx : x ∈ s
    · rw [dedupAvoid, if_pos hx, mem_dedupAvoid y xs s]
      constructor
      · exact fun ⟨h1, h2⟩ => ⟨List.mem_cons_of_mem _ h1, h2⟩
      · rintro ⟨h1, h2⟩
        rcases List.mem_cons.mp h1 with rfl | h1
        · exact absurd hx h2
        · exact ⟨h1, h2⟩
    · rw [dedupAvoid, if_neg hx]
      constructor
      · intro hm
        rcases List.mem_cons.mp hm with rfl | hm
        · exact ⟨List.mem_cons_self _ _, hx⟩
        · obtain ⟨h1, h2⟩ := (mem_dedupAvoid y xs (s ++ [x])).mp hm
          simp only [List.mem_append, List.mem_singleton, not_or] at h2
          exact ⟨List.mem_cons_of_mem _ h1, h2.1⟩
      · rintro ⟨h1, h2⟩
        rcases List.mem_cons.mp h1 with rfl | h1
        · exact List.mem_cons_self _ _
        · by_cases hyx : y = x
          · subst hyx
            exact List.mem_cons_self _ _
          · refine List.mem_cons_of_mem _ ((mem_dedupAvoid y xs (s ++ [x])).mpr ⟨h1, ?_⟩)
            simp [List.mem_append, h2, hyx]

theorem dedupAvoid_congr : ∀ (l s s' : List String),
    (∀ y, y ∈ s ↔ y ∈ s') → dedupAvoid s l = dedupAvoid s' l
  | [], _, _, _ => rfl
  | x :: xs, s, s', h => by
    by_cases hx : x ∈ s
    · rw [dedupAvoid, if_pos hx, dedupAvoid, if_pos ((h x).mp hx)]
      exact dedupAvoid_congr xs s s' h
    · rw [dedupAvoid, if_neg hx, dedupAvoid, if_neg (fun hm => hx ((h x).mpr hm))]
      rw [dedupAvoid_congr xs (s ++ [x]) (s' ++ [x])
        (fun y => by simp [List.mem_append, h y])]

theorem dedupAvoid_append : ∀ (l r s : List String),
    dedupAvoid s (l ++ r) = dedupAvoid s l ++ dedupAvoid (s ++ l) r
  | [], r, s => by simp [dedupAvoid]
  | x :: xs, r, s => by
    by_cases hx : x ∈ s
    · rw [List.cons_append, dedupAvoid, if_pos hx, dedupAvoid, if_pos hx,
        dedupAvoid_append xs r s]
      congr 1
      refine dedupAvoid_congr r (s ++ xs) (s ++ (x :: xs)) (fun y => ?_)
      simp only [List.mem_append, List.mem_cons]
      constructor
      · exact fun h => h.imp id Or.inr
      · exact fun h => h.elim Or.inl (fun h2 =>
          h2.elim (fun he => Or.inl (he ▸ hx)) Or.inr)
    · rw [List.cons_append, dedupAvoid, if_neg hx, dedupAvoid, if_neg hx,
        dedupAvoid_append xs r (s ++ [x]), List.append_assoc]
      rfl

theorem dedupAvoid_absorb : ∀ (l t s : List String),
    (∀ y ∈ t, y ∈ s) → dedupAvoid s (dedupAvoid t l) = dedupAvoid s l
  | [], _, _, _ => rfl
  | x :: xs, t, s, h => by
    by_cases hxt : x ∈ t
    · rw [dedupAvoid, if_pos hxt, dedupAvoid_absorb xs t s h, dedupAvoid,
        if_pos (h x hxt)]
    · rw [dedupAvoid, if_neg hxt]
      by_cases hxs : x ∈ s
      · rw [dedupAvoid, if_pos hxs, dedupAvoid, if_pos hxs]
        refine dedupAvoid_absorb xs (t ++ [x]) s (fun y hy => ?_)
        rcases List.mem_append.mp hy with h1 | h2
        · exact h y h1
        · rw [List.mem_singleton] at h2
          exact h2 ▸ hxs
      · rw [dedupAvoid, if_neg hxs, dedupAvoid, if_neg hxs]
        congr 1
        refine dedupAvoid_absorb xs (t ++ [x]) (s ++ [x]) (fun y hy => ?_)
        rcases List.mem_append.mp hy with h1 | h2
        · exact List.mem_append.mpr (Or.inl (h y h1))
        · exact List.mem_append.mpr (Or.inr h2)

theorem dedupAvoid_flatten_map : ∀ (ls : List (List String)) (s : List String),
    dedupAvoid s (ls.map (dedupAvoid [])).flatten = dedupAvoid s ls.flatten
  | [], _ => rfl
  | x :: rest, s => by
    rw [List.map_cons, List.flatten_cons, List.flatten_cons, dedupAvoid_append,
      dedupAvoid_append]
    congr 1
    · exact dedupAvoid_absorb x [] s (fun y hy => absurd hy (List.not_mem_nil y))
    · rw [dedupAvoid_congr ((rest.map (dedupAvoid [])).flatten)
        (s ++ dedupAvoid [] x) (s ++ x)
        (fun y => by simp [List.mem_append, mem_dedupAvoid])]
      exact dedupAvoid_flatten_map rest (s ++ x)

theorem filterMap_flatten (f : String → Option String) :
    ∀ ls : List (List String),
      ls.flatten.filterMap f = (ls.map (List.filterMap f)).flatten
  | [] => rfl
  | x :: rest => by
    rw [List.flatten_cons, List.filterMap_append, filterMap_flatten f rest,
      List.map_cons, List.flatten_cons]

theorem dedupAvoid_subset_nil : ∀ (l s : List String),
    (∀ y ∈ l, y ∈ s) → dedupAvoid s l = []
  | [], _, _ => rfl
  | x :: xs, s, h => by
    rw [dedupAvoid, if_pos (h x (List.mem_cons_self x xs))]
    exact dedupAvoid_subset_nil xs s (fun y hy => h y (List.mem_cons_of_mem x hy))

theorem rv_append_subset (X Y : List String) (html_rel_dir : String)
    (valid_images : List String) (h : ∀ x ∈ Y, x ∈ X) :
    resolve_and_validate_images (X ++ Y) html_rel_dir valid_images =
      resolve_and_validate_images X html_rel_dir valid_images := by
  rw [rv_eq_dedupAvoid, rv_eq_dedupAvoid]
  simp only [keptResolved, List.filterMap_append]
  rw [dedupAvoid_append, List.nil_append]
  have hsub : dedupAvoid (List.filterMap (keptOne html_rel_dir valid_images) X)
      (List.filterMap (keptOne html_rel_dir valid_images) Y) = [] := by
    refine dedupAvoid_subset_nil _ _ (fun y hy => ?_)
    obtain ⟨x, hx, hk⟩ := List.mem_filterMap.mp hy
    exact List.mem_filterMap.mpr ⟨x, h x hx, hk⟩
  rw [hsub, List.append_nil]

theorem rv_blocks_flatMap (sec : Section) (html_rel_dir : String)
    (valid_images : List String) :
    dedupFirst ((resolveSection html_rel_dir valid_images sec).content.flatMap
        ContentBlock.images) =
      resolve_and_validate_images ((sec.content.map ContentBlock.images).flatten)
        html_rel_dir valid_images := by
  simp only [resolveSection]
  rw [show (sec.content.map (fun b =>
      { b with images := resolve_and_validate_images b.images html_rel_dir valid_images })).flatMap
      ContentBlock.images =
    ((sec.content.map ContentBlock.images).map
      (fun l => resolve_and_validate_images l html_rel_dir valid_images)).flatten from by
      rw [List.flatMap_def, List.map_map, List.map_map]
      rfl]
  simp only [rv_eq_dedupAvoid, keptResolved]
  rw [← dedupAvoid_nil_eq_dedupFirst]
  rw [filterMap_flatten]
  rw [show ((sec.content.map ContentBlock.images).map
      (fun l => dedupAvoid [] (l.filterMap (keptOne html_rel_dir valid_images)))).flatten =
    (((sec.content.map ContentBlock.images).map
      (List.filterMap (keptOne html_rel_dir valid_images))).map (dedupAvoid [])).flatten from by
      rw [List.map_map, List.map_map]
      simp only [Function.comp_def]
      rw [List.map_map]
      simp only [Function.comp_def]]
  rw [dedupAvoid_flatten_map]

theorem stInv_flush {st : SegState} (h : StImagesInv st) :
    ∀ sec ∈ flushSections st, SecImagesInv sec := by
  intro sec hmem
  rw [flushSections] at hmem
  by_cases hc : (headerTruthy st.header || !st.content.isEmpty) = true
  · rw [if_pos hc] at hmem
    rcases List.mem_append.mp hmem with h1 | h2
    · exact h.1 sec h1
    · rw [List.mem_singleton] at h2
      subst h2
      rcases h.2 with ⟨_, hall, heq⟩ | ⟨_, b, bs, hcc, hb, hbs, him, hown⟩
      · exact Or.inl ⟨hall, heq⟩
      · exact Or.inr ⟨b, bs, hcc, hb, hbs, him, hown⟩
  · rw [if_neg hc] at hmem
    exact h.1 sec hmem

theorem stInv_step {st : SegState} (child : Node) (h : StImagesInv st) :
    StImagesInv (segStep st child) := by
  simp only [segStep]
  by_cases hH : is_generic_header (some child) = true
  · rw [if_pos hH]
    refine ⟨stInv_flush h, Or.inr ⟨by simp, headerBlock child, [], rfl, rfl,
      by simp, rfl, by simp [headerBlock]⟩⟩
  · rw [if_neg hH]
    by_cases hld : linkDense child = true
    · rw [if_pos hld]
      exact h
    · rw [if_neg hld]
      by_cases he : (child.getTextStrip == "" && (childImages child).isEmpty) = true
      · rw [if_pos he]
        exact h
      · rw [if_neg he]
        refine ⟨h.1, ?_⟩
        rcases h.2 with ⟨hnone, hall, heq⟩ | ⟨hsome, b, bs, hcc, hb, hbs, him, hown⟩
        · refine Or.inl ⟨hnone, ?_, ?_⟩
          · show ∀ x ∈ extendAliased st.header st.content (childImages child) ++
              [nonHeaderBlock child], x.is_header = false
            rw [hnone, extendAliased_none]
            intro x hx
            rcases List.mem_append.mp hx with hx | hx
            · exact hall x hx
            · rw [List.mem_singleton] at hx
              subst hx
              rfl
          · show st.images ++ childImages child =
              (extendAliased st.header st.content (childImages child) ++
                [nonHeaderBlock child]).flatMap ContentBlock.images
            rw [hnone, extendAliased_none, heq, List.flatMap_append]
            simp [nonHeaderBlock]
        · cases hh : st.header with
          | none => exact absurd hh hsome
          | some hdr =>
            refine Or.inr ⟨by simp, { b with images := b.images ++ childImages child },
              bs ++ [nonHeaderBlock child], ?_, hb, ?_, ?_, ?_⟩
            · show extendAliased (some hdr) st.content (childImages child) ++
                [nonHeaderBlock child] =
                { b with images := b.images ++ childImages child } ::
                  (bs ++ [nonHeaderBlock child])
              rw [hcc, extendAliased_some, List.cons_append]
            · intro x hx
              rcases List.mem_append.mp hx with hx | hx
              · exact hbs x hx
              · rw [List.mem_singleton] at hx
                subst hx
                rfl
            · show st.images ++ childImages child = b.images ++ childImages child
              rw [him]
            · show b.images ++ childImages child =
                childImages b.html ++
                  (bs ++ [nonHeaderBlock child]).flatMap ContentBlock.images
              rw [List.flatMap_append, hown]
              simp [nonHeaderBlock, List.append_assoc]

theorem stInv_fold (cs : List Node) :
    ∀ st : SegState, StImagesInv st → StImagesInv (cs.foldl segStep st) := by
  induction cs with
  | nil => exact fun st h => h
  | cons c cs ih => exact fun st h => ih _ (stInv_step c h)

/-- C9 (amended): every emitted section satisfies `SecImagesInv` — before
resolution the aggregate is the concatenation of the blocks' image lists
when the section has no header block, while for a header-led section the
aggregate equals the header block's (aliased) final image list, which is
the header element's own images followed by the non-header blocks'
concatenated images — and after resolution/validation the aggregate equals
the order-preserving first-occurrence deduplication of the resolved block
image lists, as the claim states. -/
theorem c9_images_amended (cs : List Node) (html_rel_dir : String)
    (valid_images : List String) :
    ∀ sec ∈ segmentSections cs,
      SecImagesInv sec ∧
      (resolveSection html_rel_dir valid_images sec).images =
        dedupFirst ((resolveSection html_rel_dir valid_images sec).content.flatMap
          ContentBlock.images) := by
  intro sec hmem
  have hinv : StImagesInv (cs.foldl segStep
      { sections := [], header := none, content := [], images := [] }) :=
    stInv_fold cs _ ⟨by simp, Or.inl ⟨rfl, by simp, by simp⟩⟩
  have hsec : SecImagesInv sec :=
    stInv_flush hinv sec (by rwa [segmentSections] at hmem)
  refine ⟨hsec, ?_⟩
  have hres : (resolveSection html_rel_dir valid_images sec).images =
      resolve_and_validate_images sec.images html_rel_dir valid_images := rfl
  rw [hres, rv_blocks_flatMap]
  rcases hsec with ⟨_, heq⟩ | ⟨b, bs, hcc, _, _, him, hown⟩
  · rw [heq, List.flatMap_def]
  · rw [him, hcc, List.map_cons, List.flatten_cons]
    refine (rv_append_subset b.images ((bs.map ContentBlock.images).flatten)
      html_rel_dir valid_images (fun x hx => ?_)).symm
    rw [hown]
    refine List.mem_append_right _ ?_
    rwa [List.flatMap_def]

/-- Counterexample to C9 as stated: a paragraph carrying the same image
reference twice yields a section whose (pre-resolution) aggregate image list
retains the duplicate, so it is not the deduplicated union of the block
image lists. -/
theorem c9_counterexample :
    (segmentSections [dupImageElem]).map Section.images = [["a.png", "a.png"]] ∧
    (segmentSections [dupImageElem]).map
      (fun sec => dedupFirst (sec.content.flatMap ContentBlock.images)) = [["a.png"]] ∧
    ¬ ∀ sec ∈ segmentSections [dupImageElem],
        sec.images = dedupFirst (sec.content.flatMap ContentBlock.images) :=
  ⟨by decide, by decide, by decide⟩

/-- Witness for the amended C9 at a header-led document exhibiting the
aliasing: the emitted header block's images equal the aggregate, and the
post-resolution aggregate equals the deduplicated union of the resolved
block lists. -/
theorem c9_witness :
    aliasedHeaderSec ∈ segmentSections headerLedContent ∧
    SecImagesInv aliasedHeaderSec ∧
    (resolveSection "" ["pic.png"] aliasedHeaderSec).images =
      dedupFirst ((resolveSection "" ["pic.png"] aliasedHeaderSec).content.flatMap
        ContentBlock.images) := by
  have hmem : aliasedHeaderSec ∈ segmentSections headerLedContent :=
    List.mem_singleton_self _
  have h := c9_images_amended headerLedContent "" ["pic.png"] aliasedHeaderSec hmem
  exact ⟨hmem, h.1, h.2⟩

end EpubSage
